import Mathlib

/-!
Verification development for the windows-screen-time repository.

The embedding translates the two core source modules:

* `src/database.py` — the `Database` class (SQLite usage store).  The two
  tables are modelled as association lists kept in insertion order, which is
  how SQLite returns them absent an ORDER BY; every query in the source uses
  an explicit ORDER BY, modelled by explicit sorting.  ISO date strings
  (`YYYY-MM-DD`) compare lexicographically exactly as their day numbers
  compare, so dates are modelled as `Nat` day indices and the SQL string
  comparison `date >= date('now','-7 days')` becomes `today - 7 ≤ d`.

* `src/tracker_service.py` — the `TrackerService` class.  Wall-clock values
  produced by Python's `time.time()` are modelled as rationals (`ℚ`), and
  Python's `int(...)` truncation of a float is modelled by `pyInt`.
  Python truthiness tests on the shared fields (`if self.current_app:`,
  `if self.app_start_time:`) are translated literally: a string is truthy
  iff it is nonempty, a float is truthy iff it is nonzero, `None` is falsy.

Each loop iteration of `TrackerService.start` is one `tick`; the calls to
`record_app_time` that a transition performs are additionally returned as an
event trace so that "exactly one flush" style properties can be stated.
-/

namespace ScreenTime

/-! ### Character-level string helpers (Python string semantics) -/

/-- Whether `pat` is an initial segment of `cs`. -/
def charsBeginWith : List Char → List Char → Bool
  | [], _ => true
  | _ :: _, [] => false
  | p :: ps, c :: cs => p = c && charsBeginWith ps cs

/-- Python's `pat in s` substring test, on character lists. -/
def charsContains (pat : List Char) : List Char → Bool
  | [] => charsBeginWith pat []
  | c :: cs => charsBeginWith pat (c :: cs) || charsContains pat cs

/-- Python's `s.replace('.exe', '')`: removes every occurrence of the exact
(lower-case) substring `.exe`, scanning left to right. -/
def removeDotExeLower : List Char → List Char
  | '.' :: 'e' :: 'x' :: 'e' :: rest => removeDotExeLower rest
  | c :: rest => c :: removeDotExeLower rest
  | [] => []

/-- Python's `s.replace('.EXE', '')`: removes every occurrence of the exact
(upper-case) substring `.EXE`, scanning left to right. -/
def removeDotExeUpper : List Char → List Char
  | '.' :: 'E' :: 'X' :: 'E' :: rest => removeDotExeUpper rest
  | c :: rest => c :: removeDotExeUpper rest
  | [] => []

/-- Python's `s.split()` with no argument: splits on whitespace runs and
drops empty pieces.  `cur` accumulates the current word reversed. -/
def splitWsAux (cur : List Char) : List Char → List (List Char)
  | [] => if cur = [] then [] else [cur.reverse]
  | c :: cs =>
    if c.isWhitespace then
      if cur = [] then splitWsAux [] cs else cur.reverse :: splitWsAux [] cs
    else splitWsAux (c :: cur) cs

/-- Python's `word.capitalize()`: first character upper-cased, the rest
lower-cased. -/
def pyCapitalize : List Char → List Char
  | [] => []
  | c :: cs => c.toUpper :: cs.map Char.toLower

/-- Python's `' '.join(words)`, on character lists. -/
def joinSpace : List (List Char) → List Char
  | [] => []
  | [w] => w
  | w :: ws => w ++ ' ' :: joinSpace ws

/-- Lower-case every character of a string (Python `s.lower()` on the ASCII
identifiers that occur here). -/
def lowerStr (s : String) : String := String.mk (s.data.map Char.toLower)

/-! ### Name Normalizer (`TrackerService.normalize_app_name`) -/

/-- The ordered alias table of `normalize_app_name` (a Python 3.7+ dict
preserves insertion order, so iteration order is the literal order). -/
def mappings : List (String × String) :=
  [("chrome", "Google Chrome"),
   ("msedge", "Microsoft Edge"),
   ("firefox", "Mozilla Firefox"),
   ("code", "Visual Studio Code"),
   ("notepad++", "Notepad++"),
   ("devenv", "Visual Studio"),
   ("winword", "Microsoft Word"),
   ("excel", "Microsoft Excel"),
   ("powerpnt", "Microsoft PowerPoint"),
   ("outlook", "Microsoft Outlook"),
   ("discord", "Discord"),
   ("spotify", "Spotify"),
   ("steam", "Steam"),
   ("vlc", "VLC Media Player")]

/-- `TrackerService.normalize_app_name`: removes every occurrence of the
exact substrings `.exe` and then `.EXE`, returns the value of the first
alias-table entry whose key occurs in the lower-cased result, and otherwise
capitalizes each whitespace-separated word of the (un-lowered) result. -/
def normalize_app_name (app_name : String) : String :=
  let s1 := removeDotExeUpper (removeDotExeLower app_name.data)
  let lower := s1.map Char.toLower
  match mappings.find? (fun kv => charsContains kv.1.data lower) with
  | some kv => kv.2
  | none => String.mk (joinSpace ((splitWsAux [] s1).map pyCapitalize))

/-! ### Window probe filter (`TrackerService.get_active_window_info`) -/

/-- The fixed denylist of system-shell process names in
`get_active_window_info`. -/
def denylist : List String := ["dwm", "explorer", "winlogon", "csrss", "lsass"]

/-- The pure core of `TrackerService.get_active_window_info` on the path
where `psutil` resolves the process name: the case-sensitive
`endswith('.exe')` strip of the last four characters, then the denylist
test on the lower-cased name.  (The `psutil` failure fallback to the window
title and the exception handler both also produce an `Option`, so every
probe outcome is `none` or `some app_name`.) -/
def get_active_window_info (process_name : String) : Option String :=
  let app_name :=
    if charsBeginWith ['e', 'x', 'e', '.'] process_name.data.reverse then
      String.mk (process_name.data.take (process_name.data.length - 4))
    else process_name
  if denylist.contains (lowerStr app_name) then none
  else some app_name

/-! ### Usage store (`Database`, src/database.py) -/

/-- The persisted state: the `app_usage` table as `(date, app_name,
duration_seconds)` rows and the `sessions` table as `(date, total_seconds,
app_count)` rows, both in insertion order with the SQL UNIQUE keys
maintained by the upserts. -/
structure Db where
  appUsage : List (Nat × String × Nat)
  sessions : List (Nat × Nat × Nat)
deriving DecidableEq, Repr

/-- A freshly initialised database (`init_database` creates empty tables). -/
def emptyDb : Db := ⟨[], []⟩

/-- The first SQL statement of `record_app_usage`: `INSERT ... ON
CONFLICT(date, app_name) DO UPDATE SET duration_seconds =
duration_seconds + ?`. -/
def upsertAppUsage : List (Nat × String × Nat) → Nat → String → Nat → List (Nat × String × Nat)
  | [], d, a, s => [(d, a, s)]
  | r :: rs, d, a, s =>
    if r.1 = d ∧ r.2.1 = a then (r.1, r.2.1, r.2.2 + s) :: rs
    else r :: upsertAppUsage rs d a s

/-- The second SQL statement of `record_app_usage`: `INSERT INTO sessions
(date, total_seconds, app_count, ...) VALUES (?, ?, 1, ...) ON
CONFLICT(date) DO UPDATE SET total_seconds = total_seconds + ?` — note the
update clause does not touch `app_count`. -/
def upsertSession : List (Nat × Nat × Nat) → Nat → Nat → List (Nat × Nat × Nat)
  | [], d, s => [(d, s, 1)]
  | r :: rs, d, s =>
    if r.1 = d then (r.1, r.2.1 + s, r.2.2) :: rs
    else r :: upsertSession rs d s

/-- `Database.record_app_usage`: both upserts followed by one `commit`, so
a single atomic step of the store. `today` is the calendar date at call
time (`date.today().isoformat()`). -/
def record_app_usage (db : Db) (today : Nat) (app_name : String) (duration_seconds : Nat) : Db :=
  ⟨upsertAppUsage db.appUsage today app_name duration_seconds,
   upsertSession db.sessions today duration_seconds⟩

/-- Folds a list of `(date, app, seconds)` calls through
`record_app_usage`. -/
def applyCalls (db : Db) (calls : List (Nat × String × Nat)) : Db :=
  calls.foldl (fun d c => record_app_usage d c.1 c.2.1 c.2.2) db

/-- `SELECT SUM(duration_seconds) FROM app_usage WHERE date = d` (with the
empty sum read as 0). -/
def sumDurationsForDate (rows : List (Nat × String × Nat)) (d : Nat) : Nat :=
  ((rows.filter (fun r => r.1 = d)).map (fun r => r.2.2)).sum

/-- `SELECT total_seconds FROM sessions WHERE date = d` on a row list, with
the `row[0] if row else 0` convention of `get_today_stats`. -/
def sessionsTotalRows (rows : List (Nat × Nat × Nat)) (d : Nat) : Nat :=
  match rows.find? (fun r => r.1 = d) with
  | some r => r.2.1
  | none => 0

/-- `SELECT total_seconds FROM sessions WHERE date = d`, with the
`row[0] if row else 0` convention of `get_today_stats`. -/
def sessionsTotal (db : Db) (d : Nat) : Nat :=
  sessionsTotalRows db.sessions d

/-- Insertion step for sorting `(app_name, duration)` rows by duration
descending (`ORDER BY duration_seconds DESC`). -/
def insertDesc (p : String × Nat) : List (String × Nat) → List (String × Nat)
  | [] => [p]
  | q :: qs => if q.2 ≤ p.2 then p :: q :: qs else q :: insertDesc p qs

/-- Insertion sort by duration descending. -/
def sortDesc : List (String × Nat) → List (String × Nat)
  | [] => []
  | p :: ps => insertDesc p (sortDesc ps)

/-- The `app_usage` rows of one date, projected to `(app_name,
duration_seconds)`. -/
def rowsForDate (db : Db) (d : Nat) : List (String × Nat) :=
  (db.appUsage.filter (fun r => r.1 = d)).map (fun r => (r.2.1, r.2.2))

/-- `SELECT app_name, duration_seconds FROM app_usage WHERE date = ?
ORDER BY duration_seconds DESC LIMIT 10`. -/
def topAppsForDate (db : Db) (d : Nat) : List (String × Nat) :=
  (sortDesc (rowsForDate db d)).take 10

/-- `Database.get_today_stats`: the day total from `sessions` (0 when the
row is absent) and the top-10 apps of the day. -/
def get_today_stats (db : Db) (today : Nat) : Nat × List (String × Nat) :=
  (sessionsTotal db today, topAppsForDate db today)

/-- Insertion step for sorting `(date, total_seconds)` rows by date
ascending (`ORDER BY date ASC`). -/
def insertAscDate (p : Nat × Nat) : List (Nat × Nat) → List (Nat × Nat)
  | [] => [p]
  | q :: qs => if p.1 ≤ q.1 then p :: q :: qs else q :: insertAscDate p qs

/-- Insertion sort by date ascending. -/
def sortAscDate : List (Nat × Nat) → List (Nat × Nat)
  | [] => []
  | p :: ps => insertAscDate p (sortAscDate ps)

/-- The `daily_stats` query of `get_weekly_stats`: `SELECT date,
total_seconds FROM sessions WHERE date >= date('now','-7 days') ORDER BY
date ASC`.  Only dates that have a `sessions` row produce an entry. -/
def weeklyDailyStats (db : Db) (today : Nat) : List (Nat × Nat) :=
  sortAscDate ((db.sessions.filter (fun r => today - 7 ≤ r.1)).map (fun r => (r.1, r.2.1)))

/-- `SUM ... GROUP BY app_name` accumulator used by the weekly top-apps
query. -/
def addToGroup : List (String × Nat) → String → Nat → List (String × Nat)
  | [], a, s => [(a, s)]
  | g :: gs, a, s => if g.1 = a then (g.1, g.2 + s) :: gs else g :: addToGroup gs a s

/-- Group the `(app_name, duration)` projection of rows and sum durations
per app. -/
def groupSums (rows : List (String × Nat)) : List (String × Nat) :=
  rows.foldl (fun acc r => addToGroup acc r.1 r.2) []

/-- The `top_apps` query of `get_weekly_stats`: per-app duration sums over
the trailing window, sorted descending, limit 10. -/
def weeklyTopApps (db : Db) (today : Nat) : List (String × Nat) :=
  (sortDesc (groupSums
    ((db.appUsage.filter (fun r => today - 7 ≤ r.1)).map (fun r => (r.2.1, r.2.2))))).take 10

/-- `Database.get_weekly_stats`: the pair of the two query results. -/
def get_weekly_stats (db : Db) (today : Nat) : List (Nat × Nat) × List (String × Nat) :=
  (weeklyDailyStats db today, weeklyTopApps db today)

/-- `Database.get_app_history`: `SELECT date, duration_seconds FROM
app_usage WHERE app_name = ? AND date >= date('now','-N days') ORDER BY
date ASC`. -/
def get_app_history (db : Db) (today : Nat) (app_name : String) (days : Nat) : List (Nat × Nat) :=
  sortAscDate ((db.appUsage.filter
    (fun r => r.2.1 = app_name ∧ today - days ≤ r.1)).map (fun r => (r.1, r.2.2)))

/-- Modelled from the spec: `Database.get_date_stats` is invoked from
`src/gui.py` (`show_date_view`) but its definition is missing from
`src/database.py`; §4.3 of the spec describes it as returning "total
seconds and top-N apps by duration descending for the given day", the same
shape `get_today_stats` produces for today's date. -/
def get_date_stats (db : Db) (d : Nat) : Nat × List (String × Nat) :=
  (sessionsTotal db d, topAppsForDate db d)

/-- Modelled from the spec: `Database.get_yesterday_stats` is invoked from
`src/gui.py` (`refresh_data`) but its definition is missing from
`src/database.py`; per §4.3 it returns the same day-stats shape for the
day before today. -/
def get_yesterday_stats (db : Db) (today : Nat) : Nat × List (String × Nat) :=
  get_date_stats db (today - 1)

/-! ### Attribution engine (`TrackerService`, src/tracker_service.py) -/

/-- Python's `int(x)` on a float: truncation toward zero.  `Int.tdiv`
truncates toward zero, matching Python for both signs. -/
def pyInt (q : ℚ) : Int := Int.tdiv q.num q.den

/-- The shared mutable fields of `TrackerService` that the tick loop,
`pause`, `resume` and `stop` touch under `self.lock`. -/
structure EngineState where
  currentApp : Option String
  appStartTime : Option ℚ
  trackingPaused : Bool
deriving DecidableEq, Repr

/-- The state set up by `TrackerService.__init__`. -/
def initState : EngineState := ⟨none, none, false⟩

/-- `TrackerService.record_app_time`: normalizes and forwards to the store
only when the integer duration is positive and the name is truthy
(nonempty). -/
def record_app_time (db : Db) (today : Nat) (app_name : String) (duration_seconds : Int) : Db :=
  if 0 < duration_seconds ∧ app_name ≠ "" then
    record_app_usage db today (normalize_app_name app_name) duration_seconds.toNat
  else db

/-- The flush pattern at every call site in `TrackerService`:
`duration = time.time() - self.app_start_time;
self.record_app_time(self.current_app, int(duration))`. -/
def flushInterval (db : Db) (today : Nat) (app : String) (start fin : ℚ) : Db :=
  record_app_time db today app (pyInt (fin - start))

/-- One iteration of the `while self.running` loop in
`TrackerService.start`, given the wall clock `now`, today's date, and the
probe outcome `window_info`.  Returns the new state, the new database, and
the list of `record_app_time` invocations (app, integer duration) the
iteration performed. -/
def tick (st : EngineState) (db : Db) (today : Nat) (now : ℚ) (window_info : Option String) :
    EngineState × Db × List (String × Int) :=
  if st.trackingPaused then (st, db, [])
  else
    match window_info with
    | some current_app =>
      match st.currentApp, st.appStartTime with
      | some a, some s =>
        if a ≠ "" ∧ a ≠ current_app ∧ s ≠ 0 then
          (⟨some current_app, some now, st.trackingPaused⟩,
           record_app_time db today a (pyInt (now - s)), [(a, pyInt (now - s))])
        else if a ≠ current_app then
          (⟨some current_app, some now, st.trackingPaused⟩, db, [])
        else (st, db, [])
      | some a, none =>
        if a ≠ current_app then (⟨some current_app, some now, st.trackingPaused⟩, db, [])
        else (⟨some a, some now, st.trackingPaused⟩, db, [])
      | none, _ =>
        (⟨some current_app, some now, st.trackingPaused⟩, db, [])
    | none =>
      match st.currentApp, st.appStartTime with
      | some a, some s =>
        if a ≠ "" ∧ s ≠ 0 then
          (⟨none, none, st.trackingPaused⟩,
           record_app_time db today a (pyInt (now - s)), [(a, pyInt (now - s))])
        else (st, db, [])
      | _, _ => (st, db, [])

/-- `TrackerService.pause`: flush the in-flight interval when both shared
fields are truthy, clear them, and set the paused flag. -/
def pause (st : EngineState) (db : Db) (today : Nat) (now : ℚ) :
    EngineState × Db × List (String × Int) :=
  match st.currentApp, st.appStartTime with
  | some a, some s =>
    if a ≠ "" ∧ s ≠ 0 then
      (⟨none, none, true⟩, record_app_time db today a (pyInt (now - s)), [(a, pyInt (now - s))])
    else (⟨st.currentApp, st.appStartTime, true⟩, db, [])
  | _, _ => (⟨st.currentApp, st.appStartTime, true⟩, db, [])

/-- `TrackerService.resume`: clear the paused flag only. -/
def resume (st : EngineState) : EngineState :=
  ⟨st.currentApp, st.appStartTime, false⟩

/-- The final flush after the `while self.running` loop exits
(`stop` only clears `running`; the loop body then performs this). -/
def stopFlush (st : EngineState) (db : Db) (today : Nat) (now : ℚ) :
    Db × List (String × Int) :=
  match st.currentApp, st.appStartTime with
  | some a, some s =>
    if a ≠ "" ∧ s ≠ 0 then
      (record_app_time db today a (pyInt (now - s)), [(a, pyInt (now - s))])
    else (db, [])
  | _, _ => (db, [])

/-- Runs a list of ticks `(today, now, window_info)` in order, threading
state and database and concatenating the flush-event traces. -/
def runTicks (st : EngineState) (db : Db) :
    List (Nat × ℚ × Option String) → EngineState × Db × List (String × Int)
  | [] => (st, db, [])
  | (today, now, w) :: rest =>
    let r1 := tick st db today now w
    let r2 := runTicks r1.1 r1.2.1 rest
    (r2.1, r2.2.1, r1.2.2 ++ r2.2.2)

/-- Runs raw probe inputs (process name or no window) through
`get_active_window_info` and then through the tick loop. -/
def runService (st : EngineState) (db : Db) (inputs : List (Nat × ℚ × Option String)) :
    EngineState × Db × List (String × Int) :=
  runTicks st db (inputs.map (fun i => (i.1, i.2.1, i.2.2.bind get_active_window_info)))

/-! ### Spec-side definitions used to compare against the source -/

/-- Follows the words of claim C7: strip one trailing executable suffix
case-insensitively, then do the alias-table substring lookup on the
lower-cased stripped name, and otherwise capitalize each
whitespace-separated token of the stripped name. -/
def stripTrailingExeCI (cs : List Char) : List Char :=
  if charsBeginWith ['e', 'x', 'e', '.'] (cs.map Char.toLower).reverse then
    cs.take (cs.length - 4)
  else cs

/-- Follows the words of claim C7 (the claimed normalizer), for comparison
with the source's `normalize_app_name`. -/
def claimNormalize (app_name : String) : String :=
  let stripped := stripTrailingExeCI app_name.data
  match mappings.find? (fun kv => charsContains kv.1.data (stripped.map Char.toLower)) with
  | some kv => kv.2
  | none => String.mk (joinSpace ((splitWsAux [] stripped).map pyCapitalize))

/-- Generic left-to-right removal of every occurrence of a pattern, with
explicit fuel; used by the spec-side restatement of the amended C7. -/
def removeAllOcc (pat : List Char) : Nat → List Char → List Char
  | 0, cs => cs
  | _ + 1, [] => []
  | fuel + 1, c :: cs =>
    if charsBeginWith pat (c :: cs) then removeAllOcc pat fuel ((c :: cs).drop pat.length)
    else c :: removeAllOcc pat fuel cs

/-- First alias-table entry whose key occurs in `lower`, written as direct
recursion over the table. -/
def firstAlias (lower : List Char) : List (String × String) → Option String
  | [] => none
  | kv :: rest => if charsContains kv.1.data lower then some kv.2 else firstAlias lower rest

/-- Follows the words of the amended claim C7: remove every occurrence of
the exact substring `.exe`, then every occurrence of the exact substring
`.EXE`; if some alias key occurs in the lower-cased result return the
first matching entry's canonical name; otherwise capitalize each
whitespace-separated token of the result. -/
def specNormalize (app_name : String) : String :=
  let cs := app_name.data
  let s1 := removeAllOcc ['.', 'E', 'X', 'E'] cs.length
              (removeAllOcc ['.', 'e', 'x', 'e'] cs.length cs)
  match firstAlias (s1.map Char.toLower) mappings with
  | some canonical => canonical
  | none => String.mk (joinSpace ((splitWsAux [] s1).map pyCapitalize))

/-! ### Derived predicates -/

/-- The C1 day-total invariant: every date's `sessions` total equals the
sum of that date's `app_usage` durations. -/
def dayInvariant (db : Db) : Prop :=
  ∀ d, sessionsTotal db d = sumDurationsForDate db.appUsage d

/-! ### Store lemmas -/

lemma sumDurations_cons (r : Nat × String × Nat) (rs : List (Nat × String × Nat)) (d : Nat) :
    sumDurationsForDate (r :: rs) d =
      (if r.1 = d then r.2.2 else 0) + sumDurationsForDate rs d := by
  by_cases h : r.1 = d <;> simp [sumDurationsForDate, List.filter_cons, h]

lemma sessionsTotalRows_cons (r : Nat × Nat × Nat) (rs : List (Nat × Nat × Nat)) (d : Nat) :
    sessionsTotalRows (r :: rs) d = if r.1 = d then r.2.1 else sessionsTotalRows rs d := by
  by_cases h : r.1 = d <;> simp [sessionsTotalRows, List.find?_cons, h]

lemma sumDurations_upsert (rows : List (Nat × String × Nat)) (d : Nat) (a : String) (s : Nat)
    (d' : Nat) :
    sumDurationsForDate (upsertAppUsage rows d a s) d' =
      sumDurationsForDate rows d' + if d' = d then s else 0 := by
  induction rows with
  | nil =>
    by_cases h : d' = d <;>
      simp [upsertAppUsage, sumDurations_cons, sumDurationsForDate, h, eq_comm]
  | cons r rs ih =>
    rw [upsertAppUsage]
    by_cases hr : r.1 = d ∧ r.2.1 = a
    · rw [if_pos hr]
      rw [sumDurations_cons, sumDurations_cons]
      by_cases hd : r.1 = d'
      · have : d' = d := by rw [← hd, hr.1]
        simp [hd, this]
        omega
      · have : ¬ d' = d := fun hc => hd (by rw [hr.1, hc])
        simp [hd, this]
    · rw [if_neg hr, sumDurations_cons, sumDurations_cons, ih]
      omega

lemma sessionsTotalRows_upsert (rows : List (Nat × Nat × Nat)) (d s d' : Nat) :
    sessionsTotalRows (upsertSession rows d s) d' =
      sessionsTotalRows rows d' + if d' = d then s else 0 := by
  induction rows with
  | nil =>
    by_cases h : d' = d <;>
      simp [upsertSession, sessionsTotalRows_cons, sessionsTotalRows, h, eq_comm]
  | cons r rs ih =>
    rw [upsertSession]
    by_cases hr : r.1 = d
    · rw [if_pos hr]
      rw [sessionsTotalRows_cons, sessionsTotalRows_cons]
      by_cases hd : r.1 = d'
      · have : d' = d := by rw [← hd, hr]
        simp [hd, this]
      · have : ¬ d' = d := fun hc => hd (by rw [hr, hc])
        simp [hd, this]
    · rw [if_neg hr, sessionsTotalRows_cons, sessionsTotalRows_cons, ih]
      by_cases hd : r.1 = d'
      · have : ¬ d' = d := fun hc => hr (by rw [hd, hc])
        simp [hd, this]
      · simp [hd]

lemma dayInvariant_record (db : Db) (t : Nat) (a : String) (s : Nat) (h : dayInvariant db) :
    dayInvariant (record_app_usage db t a s) := by
  intro d
  show sessionsTotalRows (upsertSession db.sessions t s) d =
    sumDurationsForDate (upsertAppUsage db.appUsage t a s) d
  rw [sessionsTotalRows_upsert, sumDurations_upsert, ← h d]
  rfl

lemma dayInvariant_empty : dayInvariant emptyDb := by
  intro d
  rfl

lemma dayInvariant_applyCalls (calls : List (Nat × String × Nat)) :
    ∀ db, dayInvariant db → dayInvariant (applyCalls db calls) := by
  induction calls with
  | nil => intro db h; exact h
  | cons c cs ih =>
    intro db h
    exact ih _ (dayInvariant_record _ _ _ _ h)

lemma appCount_upsertSession (rows : List (Nat × Nat × Nat)) (d s : Nat)
    (h : ∀ r ∈ rows, r.2.2 = 1) : ∀ r ∈ upsertSession rows d s, r.2.2 = 1 := by
  induction rows with
  | nil =>
    intro r hr
    simp [upsertSession] at hr
    rw [hr]
  | cons q qs ih =>
    intro r hr
    rw [upsertSession] at hr
    by_cases hq : q.1 = d
    · rw [if_pos hq] at hr
      rcases List.mem_cons.mp hr with h1 | h2
      · rw [h1]
        exact h q (List.mem_cons_self _ _)
      · exact h r (List.mem_cons_of_mem _ h2)
    · rw [if_neg hq] at hr
      rcases List.mem_cons.mp hr with h1 | h2
      · rw [h1]
        exact h q (List.mem_cons_self _ _)
      · exact ih (fun x hx => h x (List.mem_cons_of_mem _ hx)) r h2

lemma appCount_applyCalls (calls : List (Nat × String × Nat)) :
    ∀ db, (∀ r ∈ db.sessions, r.2.2 = 1) →
      ∀ r ∈ (applyCalls db calls).sessions, r.2.2 = 1 := by
  induction calls with
  | nil => intro db h; exact h
  | cons c cs ih =>
    intro db h
    exact ih _ (appCount_upsertSession _ _ _ h)

/-! ### Claim C1 -/

/-- C1: for every date `d` and every sequence of `record_app_usage` calls
with positive durations, the `sessions` row total for `d` equals the sum of
`app_usage` durations for `d`; since each call performs both updates in a
single step (one transaction), the equality also holds after every prefix
of the sequence, so it is never observably violated. -/
theorem c1_day_total_invariant (calls : List (Nat × String × Nat))
    (_hpos : ∀ c ∈ calls, 0 < c.2.2) :
    dayInvariant (applyCalls emptyDb calls) ∧
      ∀ n, dayInvariant (applyCalls emptyDb (calls.take n)) := by
  refine ⟨dayInvariant_applyCalls _ _ dayInvariant_empty, fun n => ?_⟩
  exact dayInvariant_applyCalls _ _ dayInvariant_empty

theorem c1_witness :
    (∀ c ∈ [((0 : Nat), "chrome", (3 : Nat)), (0, "code", 2), (1, "chrome", 5)], 0 < c.2.2) ∧
    (dayInvariant (applyCalls emptyDb [(0, "chrome", 3), (0, "code", 2), (1, "chrome", 5)]) ∧
      ∀ n, dayInvariant
        (applyCalls emptyDb ([(0, "chrome", 3), (0, "code", 2), (1, "chrome", 5)].take n))) :=
  ⟨by decide, c1_day_total_invariant _ (by decide)⟩

/-! ### Claim C10 -/

/-- C10: after any sequence of `record_app_usage` calls starting from a
fresh database, every `sessions` row has `app_count = 1`: the insert sets
it to 1 and the conflict update never touches it, even when further
distinct apps are recorded on the same date. -/
theorem c10_app_count_constant (calls : List (Nat × String × Nat)) :
    ∀ r ∈ (applyCalls emptyDb calls).sessions, r.2.2 = 1 := by
  exact appCount_applyCalls _ _ (by intro r hr; cases hr)

/-! ### Engine lemmas -/

lemma pyInt_eq_floor (q : ℚ) (h : 0 ≤ q) : pyInt q = ⌊q⌋ := by
  rw [Rat.floor_def, pyInt,
    Int.tdiv_eq_ediv (Rat.num_nonneg.mpr h) (Int.natCast_nonneg q.den)]

lemma tick_paused (st : EngineState) (db : Db) (today : Nat) (now : ℚ) (w : Option String)
    (h : st.trackingPaused = true) : tick st db today now w = (st, db, []) := by
  rw [tick.eq_def, if_pos h]

lemma runTicks_of_paused (st : EngineState) (h : st.trackingPaused = true) :
    ∀ (db : Db) (l : List (Nat × ℚ × Option String)), runTicks st db l = (st, db, []) := by
  intro db l
  induction l generalizing db with
  | nil => rfl
  | cons x rest ih =>
    obtain ⟨t, n, w⟩ := x
    simp only [runTicks, tick_paused st db t n w h, ih, List.nil_append]

lemma tick_switch (a b : String) (s now : ℚ) (db : Db) (today : Nat)
    (ha : a ≠ "") (hab : a ≠ b) (hs : s ≠ 0) :
    tick ⟨some a, some s, false⟩ db today now (some b) =
      (⟨some b, some now, false⟩, record_app_time db today a (pyInt (now - s)),
       [(a, pyInt (now - s))]) := by
  simp [tick, ha, hab, hs]

lemma tick_same (a : String) (s : ℚ) (db : Db) (today : Nat) (now : ℚ) :
    tick ⟨some a, some s, false⟩ db today now (some a) =
      (⟨some a, some s, false⟩, db, []) := by
  simp [tick]

lemma tick_idle (db : Db) (today : Nat) (now : ℚ) (w : String) (stt : Option ℚ) :
    tick ⟨none, stt, false⟩ db today now (some w) =
      (⟨some w, some now, false⟩, db, []) := by
  simp [tick]

lemma tick_nowin (a : String) (s : ℚ) (db : Db) (today : Nat) (now : ℚ)
    (ha : a ≠ "") (hs : s ≠ 0) :
    tick ⟨some a, some s, false⟩ db today now none =
      (⟨none, none, false⟩, record_app_time db today a (pyInt (now - s)),
       [(a, pyInt (now - s))]) := by
  simp [tick, ha, hs]

lemma tick_nowin_idle (db : Db) (today : Nat) (now : ℚ) (stt : Option ℚ) :
    tick ⟨none, stt, false⟩ db today now none = (⟨none, stt, false⟩, db, []) := by
  simp [tick]

lemma pause_of_attributing (a : String) (s : ℚ) (db : Db) (today : Nat) (now : ℚ) (b : Bool)
    (ha : a ≠ "") (hs : s ≠ 0) :
    pause ⟨some a, some s, b⟩ db today now =
      (⟨none, none, true⟩, record_app_time db today a (pyInt (now - s)),
       [(a, pyInt (now - s))]) := by
  simp [pause, ha, hs]

theorem c10_witness :
    ((0, 5, 1) ∈ (applyCalls emptyDb [((0 : Nat), "a", (3 : Nat)), (0, "b", 2)]).sessions) ∧
      ((0, 5, 1) : Nat × Nat × Nat).2.2 = 1 :=
  ⟨by decide,
   c10_app_count_constant [((0 : Nat), "a", (3 : Nat)), (0, "b", 2)] (0, 5, 1) (by decide)⟩

/-! ### Claim C2 -/

/-- C2: when the engine is attributing `A` since `s` (unpaused) and the
probe returns `B ≠ A` at time `now`, the tick performs exactly one flush,
crediting `⌊now - s⌋` seconds to `A` and nothing to `B`, and the state
becomes `Attributing (B, now)` so `B` accrues only from `now` onward. -/
theorem c2_switch_flush (A B : String) (s now : ℚ) (db : Db) (today : Nat)
    (hA : A ≠ "") (hs : s ≠ 0) (hBA : B ≠ A) (hle : s ≤ now) :
    tick ⟨some A, some s, false⟩ db today now (some B) =
      (⟨some B, some now, false⟩, record_app_time db today A ⌊now - s⌋,
       [(A, ⌊now - s⌋)]) ∧
    ∀ d : Int, (B, d) ∉ [(A, ⌊now - s⌋)] := by
  have hf : pyInt (now - s) = ⌊now - s⌋ := pyInt_eq_floor _ (sub_nonneg.mpr hle)
  constructor
  · rw [tick_switch A B s now db today hA (fun h => hBA h.symm) hs, hf]
  · intro d hd
    simp only [List.mem_singleton, Prod.mk.injEq] at hd
    exact hBA hd.1

theorem c2_witness :
    ("chrome" ≠ "" ∧ (5 : ℚ) ≠ 0 ∧ "code" ≠ "chrome" ∧ (5 : ℚ) ≤ 9) ∧
    (tick ⟨some "chrome", some 5, false⟩ emptyDb 0 9 (some "code") =
      (⟨some "code", some 9, false⟩, record_app_time emptyDb 0 "chrome" ⌊(9 : ℚ) - 5⌋,
       [("chrome", ⌊(9 : ℚ) - 5⌋)]) ∧
     ∀ d : Int, ("code", d) ∉ [("chrome", ⌊(9 : ℚ) - 5⌋)]) :=
  ⟨⟨by decide, by norm_num, by decide, by norm_num⟩,
   c2_switch_flush "chrome" "code" 5 9 emptyDb 0 (by decide) (by norm_num) (by decide)
     (by norm_num)⟩

/-! ### Claim C3 -/

/-- C3: `pause` during attribution of `A` flushes the partial interval
`[s, now)` to `A` in the same call and clears the fields; while the paused
flag is set, any sequence of ticks leaves state and database untouched and
produces no flush events; and `resume` on the state `pause` produced
yields the idle state: no current app, no start timestamp, unpaused — so
no interval is fabricated for the paused gap. -/
theorem c3_pause_no_credit_resume (A : String) (s now : ℚ) (db : Db) (today : Nat)
    (hA : A ≠ "") (hs : s ≠ 0) (hle : s ≤ now) :
    pause ⟨some A, some s, false⟩ db today now =
      (⟨none, none, true⟩, record_app_time db today A ⌊now - s⌋, [(A, ⌊now - s⌋)]) ∧
    (∀ st : EngineState, st.trackingPaused = true →
      ∀ (db' : Db) (ticks : List (Nat × ℚ × Option String)),
        runTicks st db' ticks = (st, db', [])) ∧
    resume ⟨none, none, true⟩ = ⟨none, none, false⟩ := by
  have hf : pyInt (now - s) = ⌊now - s⌋ := pyInt_eq_floor _ (sub_nonneg.mpr hle)
  refine ⟨?_, ?_, rfl⟩
  · rw [pause_of_attributing A s db today now false hA hs, hf]
  · intro st h db' ticks
    exact runTicks_of_paused st h db' ticks

theorem c3_witness :
    ("chrome" ≠ "" ∧ (5 : ℚ) ≠ 0 ∧ (5 : ℚ) ≤ 9) ∧
    (pause ⟨some "chrome", some 5, false⟩ emptyDb 0 9 =
      (⟨none, none, true⟩, record_app_time emptyDb 0 "chrome" ⌊(9 : ℚ) - 5⌋,
       [("chrome", ⌊(9 : ℚ) - 5⌋)]) ∧
     (∀ st : EngineState, st.trackingPaused = true →
       ∀ (db' : Db) (ticks : List (Nat × ℚ × Option String)),
         runTicks st db' ticks = (st, db', [])) ∧
     resume ⟨none, none, true⟩ = ⟨none, none, false⟩) :=
  ⟨⟨by decide, by norm_num, by norm_num⟩,
   c3_pause_no_credit_resume "chrome" 5 9 emptyDb 0 (by decide) (by norm_num) (by norm_num)⟩

/-! ### Claim C8 -/

/-- C8: a flush of the interval `(app, start, fin)` credits
`⌊fin - start⌋` whole seconds; the store increment runs exactly when that
duration is positive and the app name nonempty (otherwise the database is
untouched); and the increment is keyed by the flush-time date, so every
date other than the flush date is unaffected — an interval spanning
midnight is credited entirely to the day containing its end. -/
theorem c8_flush_semantics (db : Db) (today : Nat) (app : String) (start fin : ℚ)
    (hle : start ≤ fin) :
    (0 < ⌊fin - start⌋ ∧ app ≠ "" →
      flushInterval db today app start fin =
        record_app_usage db today (normalize_app_name app) (⌊fin - start⌋).toNat) ∧
    (¬(0 < ⌊fin - start⌋ ∧ app ≠ "") → flushInterval db today app start fin = db) ∧
    ∀ d, d ≠ today →
      sessionsTotal (flushInterval db today app start fin) d = sessionsTotal db d ∧
      sumDurationsForDate (flushInterval db today app start fin).appUsage d =
        sumDurationsForDate db.appUsage d := by
  have hf : pyInt (fin - start) = ⌊fin - start⌋ := pyInt_eq_floor _ (sub_nonneg.mpr hle)
  refine ⟨fun hc => ?_, fun hc => ?_, fun d hd => ?_⟩
  · rw [flushInterval, hf, record_app_time, if_pos hc]
  · rw [flushInterval, hf, record_app_time, if_neg hc]
  · rw [flushInterval, hf, record_app_time]
    by_cases hc : 0 < ⌊fin - start⌋ ∧ app ≠ ""
    · rw [if_pos hc]
      constructor
      · show sessionsTotalRows (upsertSession db.sessions today _) d = _
        rw [sessionsTotalRows_upsert, if_neg hd]
        exact Nat.add_zero _
      · show sumDurationsForDate (upsertAppUsage db.appUsage today _ _) d = _
        rw [sumDurations_upsert, if_neg hd]
        exact Nat.add_zero _
    · rw [if_neg hc]
      exact ⟨rfl, rfl⟩

theorem c8_witness :
    ((3 : ℚ) ≤ 8) ∧
    ((0 < ⌊(8 : ℚ) - 3⌋ ∧ "chrome" ≠ "" →
      flushInterval emptyDb 7 "chrome" 3 8 =
        record_app_usage emptyDb 7 (normalize_app_name "chrome") (⌊(8 : ℚ) - 3⌋).toNat) ∧
     (¬(0 < ⌊(8 : ℚ) - 3⌋ ∧ "chrome" ≠ "") → flushInterval emptyDb 7 "chrome" 3 8 = emptyDb) ∧
     ∀ d, d ≠ 7 →
       sessionsTotal (flushInterval emptyDb 7 "chrome" 3 8) d = sessionsTotal emptyDb d ∧
       sumDurationsForDate (flushInterval emptyDb 7 "chrome" 3 8).appUsage d =
         sumDurationsForDate emptyDb.appUsage d) :=
  ⟨by norm_num, c8_flush_semantics emptyDb 7 "chrome" 3 8 (by norm_num)⟩

/-! ### Claim C4 -/

/-- C4: the concrete scenario at wall-clock base `T > 0` (Python's
`time.time()` is a positive epoch timestamp): probe "chrome.exe" at `T`
and `T+2`, "code.exe" at `T+4`, no window at `T+6`, stop at `T+8`.  The
run performs exactly two flushes — 4 seconds for the chrome process at the
`T+4` tick and 2 seconds for the code process at the `T+6` tick — the stop
flush contributes nothing, and the final store holds `Google Chrome = 4`,
`Visual Studio Code = 2` with a day total of 6 seconds. -/
theorem c4_concrete_scenario (T : ℚ) (hT : 0 < T) :
    runService initState emptyDb
        [(0, T, some "chrome.exe"), (0, T + 2, some "chrome.exe"),
         (0, T + 4, some "code.exe"), (0, T + 6, none)] =
      (⟨none, none, false⟩,
       ⟨[(0, "Google Chrome", 4), (0, "Visual Studio Code", 2)], [(0, 6, 1)]⟩,
       [("chrome", 4), ("code", 2)]) ∧
    stopFlush ⟨none, none, false⟩
        ⟨[(0, "Google Chrome", 4), (0, "Visual Studio Code", 2)], [(0, 6, 1)]⟩ 0 (T + 8) =
      (⟨[(0, "Google Chrome", 4), (0, "Visual Studio Code", 2)], [(0, 6, 1)]⟩, []) ∧
    sessionsTotal ⟨[(0, "Google Chrome", 4), (0, "Visual Studio Code", 2)], [(0, 6, 1)]⟩ 0
      = 6 := by
  have hT0 : T ≠ 0 := ne_of_gt hT
  have hT4 : T + 4 ≠ 0 := ne_of_gt (by linarith)
  have e3 : T + 4 - T = (4 : ℚ) := by ring
  have e4 : T + 6 - (T + 4) = (2 : ℚ) := by ring
  have p4 : pyInt (4 : ℚ) = 4 := by decide
  have p2 : pyInt (2 : ℚ) = 2 := by decide
  have g1 : get_active_window_info "chrome.exe" = some "chrome" := by decide
  have g2 : get_active_window_info "code.exe" = some "code" := by decide
  have r4 : record_app_time emptyDb 0 "chrome" (4 : Int) =
      ⟨[(0, "Google Chrome", 4)], [(0, 4, 1)]⟩ := by decide
  have r6 : record_app_time (⟨[(0, "Google Chrome", 4)], [(0, 4, 1)]⟩ : Db) 0 "code" (2 : Int) =
      ⟨[(0, "Google Chrome", 4), (0, "Visual Studio Code", 2)], [(0, 6, 1)]⟩ := by decide
  refine ⟨?_, rfl, by decide⟩
  rw [runService]
  have hmap : ([(0, T, some "chrome.exe"), (0, T + 2, some "chrome.exe"),
      (0, T + 4, some "code.exe"), (0, T + 6, none)] :
        List (Nat × ℚ × Option String)).map
      (fun i => (i.1, i.2.1, i.2.2.bind get_active_window_info)) =
      [(0, T, some "chrome"), (0, T + 2, some "chrome"),
       (0, T + 4, some "code"), (0, T + 6, none)] := by
    simp [g1, g2]
  rw [hmap]
  simp only [initState, runTicks,
    tick_idle emptyDb 0 T "chrome" none,
    tick_same "chrome" T emptyDb 0 (T + 2),
    tick_switch "chrome" "code" T (T + 4) emptyDb 0 (by decide) (by decide) hT0,
    tick_nowin "code" (T + 4) (⟨[(0, "Google Chrome", 4)], [(0, 4, 1)]⟩ : Db) 0 (T + 6)
      (by decide) hT4,
    e3, e4, p4, p2, r4, r6, List.nil_append, List.append_nil, List.cons_append]

theorem c4_witness :
    (0 < (1000 : ℚ)) ∧
    (runService initState emptyDb
        [(0, 1000, some "chrome.exe"), (0, 1000 + 2, some "chrome.exe"),
         (0, 1000 + 4, some "code.exe"), (0, 1000 + 6, none)] =
      (⟨none, none, false⟩,
       ⟨[(0, "Google Chrome", 4), (0, "Visual Studio Code", 2)], [(0, 6, 1)]⟩,
       [("chrome", 4), ("code", 2)]) ∧
     stopFlush ⟨none, none, false⟩
        ⟨[(0, "Google Chrome", 4), (0, "Visual Studio Code", 2)], [(0, 6, 1)]⟩ 0 (1000 + 8) =
      (⟨[(0, "Google Chrome", 4), (0, "Visual Studio Code", 2)], [(0, 6, 1)]⟩, []) ∧
     sessionsTotal ⟨[(0, "Google Chrome", 4), (0, "Visual Studio Code", 2)], [(0, 6, 1)]⟩ 0
       = 6) :=
  ⟨by norm_num, c4_concrete_scenario 1000 (by norm_num)⟩

/-! ### Claim C9 -/

lemma probe_good (raw a : String) (h : get_active_window_info raw = some a) :
    lowerStr a ∉ denylist := by
  rw [get_active_window_info] at h
  set app_name := if charsBeginWith ['e', 'x', 'e', '.'] raw.data.reverse then
      String.mk (raw.data.take (raw.data.length - 4))
    else raw with happ
  by_cases hc : denylist.contains (lowerStr app_name) = true
  · rw [if_pos hc] at h
    cases h
  · rw [if_neg hc] at h
    have : app_name = a := by injection h
    subst this
    intro hmem
    exact hc (List.elem_iff.mpr hmem)

lemma tick_events_good (st : EngineState) (db : Db) (t : Nat) (n : ℚ) (w : Option String)
    (hst : ∀ a, st.currentApp = some a → lowerStr a ∉ denylist)
    (hw : ∀ a, w = some a → lowerStr a ∉ denylist) :
    (∀ a, (tick st db t n w).1.currentApp = some a → lowerStr a ∉ denylist) ∧
    (∀ ev ∈ (tick st db t n w).2.2, lowerStr ev.1 ∉ denylist) := by
  obtain ⟨ca, sa, pz⟩ := st
  rw [tick.eq_def]
  by_cases hp : pz = true
  · rw [if_pos hp]
    exact ⟨hst, fun ev h => absurd h (List.not_mem_nil ev)⟩
  · rw [if_neg hp]
    cases w with
    | some current_app =>
      cases ca with
      | some a =>
        cases sa with
        | some s =>
          dsimp only
          by_cases h1 : a ≠ "" ∧ a ≠ current_app ∧ s ≠ 0
          · rw [if_pos h1]
            refine ⟨fun x hx => ?_, fun ev hev => ?_⟩
            · have : current_app = x := by injection hx
              subst this
              exact hw _ rfl
            · have : ev = (a, pyInt (n - s)) := List.mem_singleton.mp hev
              subst this
              exact hst a rfl
          · rw [if_neg h1]
            by_cases h2 : a ≠ current_app
            · rw [if_pos h2]
              refine ⟨fun x hx => ?_, fun ev hev => absurd hev (List.not_mem_nil ev)⟩
              have : current_app = x := by injection hx
              subst this
              exact hw _ rfl
            · rw [if_neg h2]
              exact ⟨hst, fun ev hev => absurd hev (List.not_mem_nil ev)⟩
        | none =>
          dsimp only
          by_cases h2 : a ≠ current_app
          · rw [if_pos h2]
            refine ⟨fun x hx => ?_, fun ev hev => absurd hev (List.not_mem_nil ev)⟩
            have : current_app = x := by injection hx
            subst this
            exact hw _ rfl
          · rw [if_neg h2]
            refine ⟨fun x hx => ?_, fun ev hev => absurd hev (List.not_mem_nil ev)⟩
            have : a = x := by injection hx
            subst this
            exact hst _ rfl
      | none =>
        dsimp only
        refine ⟨fun x hx => ?_, fun ev hev => absurd hev (List.not_mem_nil ev)⟩
        have : current_app = x := by injection hx
        subst this
        exact hw _ rfl
    | none =>
      cases ca with
      | some a =>
        cases sa with
        | some s =>
          dsimp only
          by_cases h1 : a ≠ "" ∧ s ≠ 0
          · rw [if_pos h1]
            refine ⟨fun x hx => Option.noConfusion hx, fun ev hev => ?_⟩
            have : ev = (a, pyInt (n - s)) := List.mem_singleton.mp hev
            subst this
            exact hst a rfl
          · rw [if_neg h1]
            exact ⟨hst, fun ev hev => absurd hev (List.not_mem_nil ev)⟩
        | none => exact ⟨hst, fun ev hev => absurd hev (List.not_mem_nil ev)⟩
      | none => exact ⟨hst, fun ev hev => absurd hev (List.not_mem_nil ev)⟩

lemma runTicks_events_good (l : List (Nat × ℚ × Option String))
    (hl : ∀ x ∈ l, ∀ a, x.2.2 = some a → lowerStr a ∉ denylist) :
    ∀ (st : EngineState) (db : Db),
      (∀ a, st.currentApp = some a → lowerStr a ∉ denylist) →
      ∀ ev ∈ (runTicks st db l).2.2, lowerStr ev.1 ∉ denylist := by
  induction l with
  | nil =>
    intro st db hst ev h
    cases h
  | cons x rest ih =>
    intro st db hst ev h
    obtain ⟨t, n, w⟩ := x
    have hw : ∀ a, w = some a → lowerStr a ∉ denylist := fun a ha =>
      hl (t, n, w) (List.mem_cons_self _ _) a ha
    have hgood := tick_events_good st db t n w hst hw
    simp only [runTicks] at h
    rcases List.mem_append.mp h with h1 | h2
    · exact hgood.2 ev h1
    · exact ih (fun y hy => hl y (List.mem_cons_of_mem _ hy)) _ _ hgood.1 ev h2

/-- C9 counterexample: the raw process name "DWM.EXE" escapes the filter
(the `endswith('.exe')` strip is case-sensitive and the denylist test
compares the lower-cased raw name, "dwm.exe", which is not an entry), yet
its normalized identity is "Dwm" — the denylisted window-manager shell —
and a two-tick run flushes 2 seconds credited to "Dwm". -/
theorem c9_counterexample :
    get_active_window_info "DWM.EXE" = some "DWM.EXE" ∧
    normalize_app_name "DWM.EXE" = "Dwm" ∧
    lowerStr "Dwm" ∈ denylist ∧
    runService initState emptyDb [(0, 10, some "DWM.EXE"), (0, 12, none)] =
      (⟨none, none, false⟩, ⟨[(0, "Dwm", 2)], [(0, 2, 1)]⟩, [("DWM.EXE", 2)]) := by
  refine ⟨by decide, by decide, by decide, ?_⟩
  have e : (12 : ℚ) - 10 = 2 := by norm_num
  have p2 : pyInt (2 : ℚ) = 2 := by decide
  have h10 : (10 : ℚ) ≠ 0 := by norm_num
  have r : record_app_time emptyDb 0 "DWM.EXE" (2 : Int) =
      ⟨[(0, "Dwm", 2)], [(0, 2, 1)]⟩ := by decide
  rw [runService]
  have hmap : ([(0, 10, some "DWM.EXE"), (0, 12, none)] :
      List (Nat × ℚ × Option String)).map
      (fun i => (i.1, i.2.1, i.2.2.bind get_active_window_info)) =
      [(0, 10, some "DWM.EXE"), (0, 12, none)] := by
    simp [(by decide : get_active_window_info "DWM.EXE" = some "DWM.EXE")]
  rw [hmap]
  simp only [initState, runTicks,
    tick_idle emptyDb 0 10 "DWM.EXE" none,
    tick_nowin "DWM.EXE" 10 emptyDb 0 12 (by decide) h10,
    e, p2, r, List.nil_append, List.append_nil, List.cons_append]

/-- C9 amended: a sample whose lower-cased raw name (after the
case-sensitive `.exe` strip) is exactly a denylist entry is treated as
no-window; and in every run of the service, every flush event credits an
app whose lower-cased raw name is not a denylist entry.  (A name that
merely normalizes to a denylisted identity, such as "DWM.EXE" ↦ "Dwm", can
still be credited — see the counterexample.) -/
theorem c9_denylist_filtering :
    (∀ raw : String,
      denylist.contains (lowerStr
        (if charsBeginWith ['e', 'x', 'e', '.'] raw.data.reverse then
          String.mk (raw.data.take (raw.data.length - 4))
        else raw)) = true →
      get_active_window_info raw = none) ∧
    ∀ (inputs : List (Nat × ℚ × Option String)) (ev : String × Int),
      ev ∈ (runService initState emptyDb inputs).2.2 → lowerStr ev.1 ∉ denylist := by
  constructor
  · intro raw h
    simp only [get_active_window_info]
    rw [if_pos h]
  · intro inputs ev h
    rw [runService] at h
    refine runTicks_events_good _ ?_ _ _ ?_ ev h
    · intro x hx a ha
      rcases List.mem_map.mp hx with ⟨x0, _, rfl⟩
      dsimp only at ha
      cases hx022 : x0.2.2 with
      | none =>
        rw [hx022] at ha
        cases ha
      | some raw =>
        rw [hx022] at ha
        simp only [Option.some_bind] at ha
        exact probe_good raw a ha
    · intro a ha
      exact Option.noConfusion ha

theorem c9_witness :
    (denylist.contains (lowerStr
        (if charsBeginWith ['e', 'x', 'e', '.'] "explorer.exe".data.reverse then
          String.mk ("explorer.exe".data.take ("explorer.exe".data.length - 4))
        else "explorer.exe")) = true ∧
      get_active_window_info "explorer.exe" = none) ∧
    (("notepad", (2 : Int)) ∈
        (runService initState emptyDb [(0, 10, some "notepad.exe"), (0, 12, none)]).2.2 ∧
      lowerStr ("notepad", (2 : Int)).1 ∉ denylist) := by
  have e : (12 : ℚ) - 10 = 2 := by norm_num
  have p2 : pyInt (2 : ℚ) = 2 := by decide
  have h10 : (10 : ℚ) ≠ 0 := by norm_num
  have r : record_app_time emptyDb 0 "notepad" (2 : Int) =
      ⟨[(0, "Notepad", 2)], [(0, 2, 1)]⟩ := by decide
  have hrun : runService initState emptyDb [(0, 10, some "notepad.exe"), (0, 12, none)] =
      (⟨none, none, false⟩, ⟨[(0, "Notepad", 2)], [(0, 2, 1)]⟩, [("notepad", 2)]) := by
    rw [runService]
    have hmap : ([(0, 10, some "notepad.exe"), (0, 12, none)] :
        List (Nat × ℚ × Option String)).map
        (fun i => (i.1, i.2.1, i.2.2.bind get_active_window_info)) =
        [(0, 10, some "notepad"), (0, 12, none)] := by
      simp [(by decide : get_active_window_info "notepad.exe" = some "notepad")]
    rw [hmap]
    simp only [initState, runTicks,
      tick_idle emptyDb 0 10 "notepad" none,
      tick_nowin "notepad" 10 emptyDb 0 12 (by decide) h10,
      e, p2, r, List.nil_append, List.append_nil, List.cons_append]
  have hmem : ("notepad", (2 : Int)) ∈
      (runService initState emptyDb [(0, 10, some "notepad.exe"), (0, 12, none)]).2.2 := by
    rw [hrun]
    decide
  exact ⟨⟨by decide, c9_denylist_filtering.1 "explorer.exe" (by decide)⟩,
    ⟨hmem, c9_denylist_filtering.2 _ _ hmem⟩⟩

/-! ### Claim C5 -/

lemma mem_insertAscDate (p q : Nat × Nat) (l : List (Nat × Nat)) :
    p ∈ insertAscDate q l ↔ p = q ∨ p ∈ l := by
  induction l with
  | nil => simp [insertAscDate]
  | cons r rs ih =>
    rw [insertAscDate]
    by_cases h : q.1 ≤ r.1
    · rw [if_pos h]
      simp [List.mem_cons]
    · rw [if_neg h]
      simp [List.mem_cons, ih]
      tauto

lemma mem_sortAscDate (p : Nat × Nat) (l : List (Nat × Nat)) :
    p ∈ sortAscDate l ↔ p ∈ l := by
  induction l with
  | nil => simp [sortAscDate]
  | cons r rs ih =>
    rw [sortAscDate]
    simp [mem_insertAscDate, ih, List.mem_cons]

lemma pairwise_insertAscDate (q : Nat × Nat) (l : List (Nat × Nat))
    (h : l.Pairwise (fun x y => x.1 ≤ y.1)) :
    (insertAscDate q l).Pairwise (fun x y => x.1 ≤ y.1) := by
  induction l with
  | nil => simp [insertAscDate]
  | cons r rs ih =>
    rw [insertAscDate]
    rcases List.pairwise_cons.mp h with ⟨hr, hrs⟩
    by_cases hle : q.1 ≤ r.1
    · rw [if_pos hle]
      refine List.pairwise_cons.mpr ⟨?_, h⟩
      intro y hy
      rcases List.mem_cons.mp hy with rfl | hy'
      · exact hle
      · exact le_trans hle (hr y hy')
    · rw [if_neg hle]
      refine List.pairwise_cons.mpr ⟨?_, ih hrs⟩
      intro y hy
      rcases (mem_insertAscDate y q rs).mp hy with rfl | hy'
      · exact le_of_not_le hle
      · exact hr y hy'

lemma pairwise_sortAscDate (l : List (Nat × Nat)) :
    (sortAscDate l).Pairwise (fun x y => x.1 ≤ y.1) := by
  induction l with
  | nil => simp [sortAscDate]
  | cons r rs ih => exact pairwise_insertAscDate r _ ih

/-- C5 counterexample: on the empty database, `get_weekly_stats` returns no
per-day entries at all — in particular no `(day, 0)` entry for yesterday —
instead of one zero entry per day of the trailing window. -/
theorem c5_counterexample :
    weeklyDailyStats emptyDb 10 = [] ∧
    ((9, 0) : Nat × Nat) ∉ weeklyDailyStats emptyDb 10 ∧
    (weeklyDailyStats emptyDb 10).length ≠ 7 := by
  exact ⟨rfl, by decide, by decide⟩

/-- C5 amended: the `daily_stats` part of `get_weekly_stats` contains one
entry per stored `sessions` row whose date lies in the trailing window
(`today - 7 ≤ date`), in ascending date order; days of the window with no
stored row produce no entry at all. -/
theorem c5_weekly_daily (db : Db) (today : Nat) :
    (weeklyDailyStats db today).Pairwise (fun x y => x.1 ≤ y.1) ∧
    ∀ p : Nat × Nat, p ∈ weeklyDailyStats db today ↔
      ∃ c, (p.1, p.2, c) ∈ db.sessions ∧ today - 7 ≤ p.1 := by
  constructor
  · exact pairwise_sortAscDate _
  · intro p
    rw [weeklyDailyStats, mem_sortAscDate, List.mem_map]
    constructor
    · rintro ⟨r, hr, rfl⟩
      rcases List.mem_filter.mp hr with ⟨hmem, hcond⟩
      exact ⟨r.2.2, hmem, by simpa using hcond⟩
    · rintro ⟨c, hmem, hcond⟩
      exact ⟨(p.1, p.2, c), List.mem_filter.mpr ⟨hmem, by simpa using hcond⟩, rfl⟩

/-! ### Claim C6 -/

lemma mem_insertDesc (p q : String × Nat) (l : List (String × Nat)) :
    p ∈ insertDesc q l ↔ p = q ∨ p ∈ l := by
  induction l with
  | nil => simp [insertDesc]
  | cons r rs ih =>
    rw [insertDesc]
    by_cases h : r.2 ≤ q.2
    · rw [if_pos h]
      simp [List.mem_cons]
    · rw [if_neg h]
      simp [List.mem_cons, ih]
      tauto

lemma mem_sortDesc (p : String × Nat) (l : List (String × Nat)) :
    p ∈ sortDesc l ↔ p ∈ l := by
  induction l with
  | nil => simp [sortDesc]
  | cons r rs ih =>
    rw [sortDesc]
    simp [mem_insertDesc, ih, List.mem_cons]

lemma pairwise_insertDesc (q : String × Nat) (l : List (String × Nat))
    (h : l.Pairwise (fun x y => y.2 ≤ x.2)) :
    (insertDesc q l).Pairwise (fun x y => y.2 ≤ x.2) := by
  induction l with
  | nil => simp [insertDesc]
  | cons r rs ih =>
    rw [insertDesc]
    rcases List.pairwise_cons.mp h with ⟨hr, hrs⟩
    by_cases hle : r.2 ≤ q.2
    · rw [if_pos hle]
      refine List.pairwise_cons.mpr ⟨?_, h⟩
      intro y hy
      rcases List.mem_cons.mp hy with rfl | hy'
      · exact hle
      · exact le_trans (hr y hy') hle
    · rw [if_neg hle]
      refine List.pairwise_cons.mpr ⟨?_, ih hrs⟩
      intro y hy
      rcases (mem_insertDesc y q rs).mp hy with rfl | hy'
      · exact le_of_not_le hle
      · exact hr y hy'

lemma pairwise_sortDesc (l : List (String × Nat)) :
    (sortDesc l).Pairwise (fun x y => y.2 ≤ x.2) := by
  induction l with
  | nil => simp [sortDesc]
  | cons r rs ih => exact pairwise_insertDesc r _ ih

/-- C6: the (spec-modelled) `get_date_stats` returns, for every database
state satisfying the day-total invariant, the requested day's total
seconds (equal to the sum of that day's `app_usage` durations) together
with at most ten apps sorted by duration descending, all drawn from that
day's rows; and `get_yesterday_stats` is exactly `get_date_stats` at
`today - 1`. -/
theorem c6_date_stats (db : Db) (d today : Nat) (hinv : dayInvariant db) :
    (get_date_stats db d).1 = sumDurationsForDate db.appUsage d ∧
    (get_date_stats db d).2.Pairwise (fun x y => y.2 ≤ x.2) ∧
    (get_date_stats db d).2.length ≤ 10 ∧
    (∀ p ∈ (get_date_stats db d).2, (d, p.1, p.2) ∈ db.appUsage) ∧
    get_yesterday_stats db today = get_date_stats db (today - 1) := by
  refine ⟨hinv d, ?_, ?_, ?_, rfl⟩
  · exact List.Pairwise.sublist (List.take_sublist _ _) (pairwise_sortDesc _)
  · show (topAppsForDate db d).length ≤ 10
    rw [topAppsForDate, List.length_take]
    exact min_le_left _ _
  · intro p hp
    have hp' : p ∈ sortDesc (rowsForDate db d) := (List.take_sublist _ _).subset hp
    rw [mem_sortDesc] at hp'
    rcases List.mem_map.mp hp' with ⟨r, hr, hpr⟩
    rcases List.mem_filter.mp hr with ⟨hmem, hcond⟩
    have hd : r.1 = d := by simpa using hcond
    rw [← hpr]
    show (d, r.2.1, r.2.2) ∈ db.appUsage
    rw [← hd]
    exact hmem

theorem c6_witness :
    dayInvariant (applyCalls emptyDb [(0, "chrome", 5), (0, "code", 9)]) ∧
    ((get_date_stats (applyCalls emptyDb [(0, "chrome", 5), (0, "code", 9)]) 0).1 =
        sumDurationsForDate (applyCalls emptyDb [(0, "chrome", 5), (0, "code", 9)]).appUsage 0 ∧
      (get_date_stats (applyCalls emptyDb [(0, "chrome", 5), (0, "code", 9)]) 0).2.Pairwise
        (fun x y => y.2 ≤ x.2) ∧
      (get_date_stats (applyCalls emptyDb [(0, "chrome", 5), (0, "code", 9)]) 0).2.length ≤ 10 ∧
      (∀ p ∈ (get_date_stats (applyCalls emptyDb [(0, "chrome", 5), (0, "code", 9)]) 0).2,
        (0, p.1, p.2) ∈ (applyCalls emptyDb [(0, "chrome", 5), (0, "code", 9)]).appUsage) ∧
      get_yesterday_stats (applyCalls emptyDb [(0, "chrome", 5), (0, "code", 9)]) 3 =
        get_date_stats (applyCalls emptyDb [(0, "chrome", 5), (0, "code", 9)]) 2) :=
  ⟨dayInvariant_applyCalls _ _ dayInvariant_empty,
   c6_date_stats _ 0 3 (dayInvariant_applyCalls _ _ dayInvariant_empty)⟩

/-! ### Claim C7 -/

lemma charsBeginWith_iff (pat : List Char) :
    ∀ cs, charsBeginWith pat cs = true ↔ ∃ r, cs = pat ++ r := by
  induction pat with
  | nil => intro cs; simp [charsBeginWith]
  | cons p ps ih =>
    intro cs
    cases cs with
    | nil => simp [charsBeginWith]
    | cons c cs' =>
      simp only [charsBeginWith, Bool.and_eq_true, decide_eq_true_eq, ih, List.cons_append,
        List.cons.injEq]
      constructor
      · rintro ⟨h1, r, h2⟩
        exact ⟨r, h1.symm, h2⟩
      · rintro ⟨r, h1, h2⟩
        exact ⟨h1.symm, r, h2⟩

lemma removeAll_eq_lower : ∀ (n : Nat) (cs : List Char), cs.length ≤ n →
    removeAllOcc ['.', 'e', 'x', 'e'] n cs = removeDotExeLower cs := by
  intro n
  induction n with
  | zero =>
    intro cs h
    have : cs = [] := List.eq_nil_of_length_eq_zero (Nat.le_zero.mp h)
    subst this
    rfl
  | succ f ih =>
    intro cs h
    rw [removeDotExeLower.eq_def]
    split
    · next rest =>
      have hb : charsBeginWith ['.', 'e', 'x', 'e'] ('.' :: 'e' :: 'x' :: 'e' :: rest) = true := by
        simp [charsBeginWith]
      rw [removeAllOcc, if_pos hb]
      simp only [List.drop]
      exact ih rest (by simp at h; omega)
    · next c rest hne =>
      have hb : charsBeginWith ['.', 'e', 'x', 'e'] (c :: rest) = false := by
        by_contra hcontra
        rw [Bool.not_eq_false, charsBeginWith_iff] at hcontra
        obtain ⟨r, hr⟩ := hcontra
        simp only [List.cons_append, List.nil_append, List.cons.injEq] at hr
        exact hne r hr.1 (by rw [hr.2])
      rw [removeAllOcc, if_neg (by rw [hb]; exact Bool.false_ne_true)]
      rw [ih rest (by simp at h; omega)]
    · rfl

lemma removeAll_eq_upper : ∀ (n : Nat) (cs : List Char), cs.length ≤ n →
    removeAllOcc ['.', 'E', 'X', 'E'] n cs = removeDotExeUpper cs := by
  intro n
  induction n with
  | zero =>
    intro cs h
    have : cs = [] := List.eq_nil_of_length_eq_zero (Nat.le_zero.mp h)
    subst this
    rfl
  | succ f ih =>
    intro cs h
    rw [removeDotExeUpper.eq_def]
    split
    · next rest =>
      have hb : charsBeginWith ['.', 'E', 'X', 'E'] ('.' :: 'E' :: 'X' :: 'E' :: rest) = true := by
        simp [charsBeginWith]
      rw [removeAllOcc, if_pos hb]
      simp only [List.drop]
      exact ih rest (by simp at h; omega)
    · next c rest hne =>
      have hb : charsBeginWith ['.', 'E', 'X', 'E'] (c :: rest) = false := by
        by_contra hcontra
        rw [Bool.not_eq_false, charsBeginWith_iff] at hcontra
        obtain ⟨r, hr⟩ := hcontra
        simp only [List.cons_append, List.nil_append, List.cons.injEq] at hr
        exact hne r hr.1 (by rw [hr.2])
      rw [removeAllOcc, if_neg (by rw [hb]; exact Bool.false_ne_true)]
      rw [ih rest (by simp at h; omega)]
    · rfl

lemma length_removeAllOcc (pat : List Char) : ∀ (n : Nat) (cs : List Char),
    (removeAllOcc pat n cs).length ≤ cs.length := by
  intro n
  induction n with
  | zero => intro cs; exact le_rfl
  | succ f ih =>
    intro cs
    cases cs with
    | nil => simp [removeAllOcc]
    | cons c cs' =>
      rw [removeAllOcc]
      by_cases h : charsBeginWith pat (c :: cs') = true
      · rw [if_pos h]
        exact le_trans (ih _) (by rw [List.length_drop]; omega)
      · rw [if_neg h]
        simp only [List.length_cons]
        exact Nat.succ_le_succ (ih cs')

lemma firstAlias_spec (lower : List Char) (l : List (String × String)) :
    firstAlias lower l =
      Option.map (fun kv => kv.2) (l.find? (fun kv => charsContains kv.1.data lower)) := by
  induction l with
  | nil => rfl
  | cons kv rest ih =>
    rw [firstAlias]
    by_cases h : charsContains kv.1.data lower = true
    · rw [if_pos h]
      simp only [List.find?, h]
      rfl
    · have hb : charsContains kv.1.data lower = false := by simpa using h
      rw [if_neg h]
      simp only [List.find?, hb, ih]

lemma normalize_eq_spec (s : String) : normalize_app_name s = specNormalize s := by
  have hlow : removeDotExeLower s.data =
      removeAllOcc ['.', 'e', 'x', 'e'] s.data.length s.data :=
    (removeAll_eq_lower s.data.length s.data le_rfl).symm
  have hlen : (removeDotExeLower s.data).length ≤ s.data.length := by
    rw [hlow]
    exact length_removeAllOcc _ _ _
  have hup : removeDotExeUpper (removeDotExeLower s.data) =
      removeAllOcc ['.', 'E', 'X', 'E'] s.data.length
        (removeAllOcc ['.', 'e', 'x', 'e'] s.data.length s.data) := by
    rw [← hlow]
    exact (removeAll_eq_upper s.data.length (removeDotExeLower s.data) hlen).symm
  simp only [normalize_app_name, specNormalize]
  rw [hup, firstAlias_spec]
  cases hfind : mappings.find? (fun kv => charsContains kv.1.data
      ((removeAllOcc ['.', 'E', 'X', 'E'] s.data.length
        (removeAllOcc ['.', 'e', 'x', 'e'] s.data.length s.data)).map Char.toLower)) with
  | none => simp
  | some kv => simp

/-- C7 counterexample: the source normalizer does not strip a trailing
executable suffix case-insensitively: on "x.eXe" the claimed algorithm
(strip the trailing suffix whatever its case, then alias lookup, then
capitalize) yields "X", while the code — which only removes the exact
substrings ".exe" and ".EXE" — yields "X.exe". -/
theorem c7_counterexample :
    claimNormalize "x.eXe" = "X" ∧ normalize_app_name "x.eXe" = "X.exe" ∧
    ("X" : String) ≠ "X.exe" :=
  ⟨by decide, by decide, by decide⟩

/-- C7 amended: `normalize_app_name` is a total deterministic function
that removes every occurrence of the exact substrings ".exe" and then
".EXE" (so mixed-case suffixes are kept and interior occurrences are also
removed), then returns the canonical name of the first alias-table entry
whose key is a substring of the lower-cased result (table order deciding
ties), and otherwise capitalizes each whitespace-separated token of the
result (first character upper-cased, the rest lower-cased); in particular
"CHROME.EXE" maps to "Google Chrome", "unknownapp123" to "Unknownapp123",
and the interior occurrence in "a.exeb.exe" is removed, giving "Ab". -/
theorem c7_normalizer (s : String) :
    normalize_app_name s = specNormalize s ∧
    normalize_app_name "CHROME.EXE" = "Google Chrome" ∧
    normalize_app_name "unknownapp123" = "Unknownapp123" ∧
    normalize_app_name "a.exeb.exe" = "Ab" :=
  ⟨normalize_eq_spec s, by decide, by decide, by decide⟩

end ScreenTime
